import Mathlib

/-
Verification of the nano-eslint extension logic
(src/nano-eslint.novaextension/Scripts/main.js).

The source contains two variants of the script separated by a document
marker: the current variant (config locator `getClosestEslintConfig` at
lines 36-58, lint runner `eslint` at lines 65-90, diagnostic mapping inside
`maybeLint` at lines 96-153, fix application `maybeFix` at lines 156-181)
and an older variant (its `getClosestEslintConfig` at lines 235-251).

Embedding conventions:
* An absolute directory path is a list of path components from the
  filesystem root; `[]` is the root `/`.  `nova.path.join(dirname,
  "../".repeat(i))` resolves `i` parent traversals clamped at the root
  (per the host path API as the spec describes it), and
  `nova.path.join(root, name)` appends the single component `name`;
  `nova.path.normalize` is the identity on such already-normalized paths.
* `nova.fs.stat(p)` is truthy exactly when a file exists at `p`; the
  filesystem is a parameter `stat : Path → Bool`.
* The `while (true)` loops of both locator variants are embedded with a
  fuel argument.  Both loops provably exit by iteration `i = 101` (the
  bound check `i > 100`), so fuel `102` started at `i = 0` is never
  exhausted; the `fuel_stable` lemmas below establish that the result is
  independent of any further fuel, i.e. the fuel embedding computes the
  same function as the unbounded loop.
* JavaScript values flowing out of `JSON.parse` are dynamically typed;
  they are embedded as the inductive `JVal`, with JS numbers carried as
  integers (the script only tests `typeof x === "number"` and compares
  severities against the literals 1 and 2, so no floating-point behavior
  is observable in the claims).
-/

namespace NanoEslint

/-- Absolute path, as the list of its components below the root. -/
abbrev Path := List String

/-- Directory obtained from `p` by `i` parent traversals, clamped at the
root: the value of `nova.path.join(p, "../".repeat(i))`. -/
def ancestor (p : Path) (i : Nat) : Path :=
  p.take (p.length - i)

/-- One parent traversal (`..`). -/
def parentDir (p : Path) : Path := p.dropLast

/-- DEFAULT_ESLINT_CONFIG_FILENAMES from main.js lines 3-10 (the older
variant's ESLINT_CONFIG_FILENAMES, lines 202-209, is the same list). -/
def DEFAULT_ESLINT_CONFIG_FILENAMES : List String :=
  ["eslint.config.js", "eslint.config.mjs", "eslint.config.cjs",
   "eslint.config.ts", "eslint.config.mts", "eslint.config.cts"]

/-- The inner `for` loop of the current `getClosestEslintConfig`
(lines 46-50): the first candidate name, in listed order, that exists in
`configRoot`, returned as a full path. -/
def findConfigAt (stat : Path → Bool) (names : List String) (configRoot : Path) :
    Option Path :=
  (names.find? fun n => stat (configRoot ++ [n])).map fun n => configRoot ++ [n]

/-- The `while (true)` loop of the current `getClosestEslintConfig`
(lines 41-57), with explicit fuel: test all candidates at level `i`; if
none exists, stop when the level is the root, stop when `i > 100`,
otherwise ascend. -/
def getClosestAux (stat : Path → Bool) (names : List String) (dirname : Path) :
    Nat → Nat → Option Path
  | 0, _ => none
  | fuel + 1, i =>
    match findConfigAt stat names (ancestor dirname i) with
    | some p => some p
    | none =>
      if ancestor dirname i = [] then none
      else if 100 < i then none
      else getClosestAux stat names dirname fuel (i + 1)

/-- The current locator run on an explicit candidate list. -/
def getClosestConfigWith (stat : Path → Bool) (names : List String) (dirname : Path) :
    Option Path :=
  getClosestAux stat names dirname 102 0

/-- getClosestEslintConfig, current variant (lines 36-58): user-configured
names (`org.nano-eslint.config_names`, here the parameter `userNames`)
are concatenated in front of the built-in defaults. -/
def getClosestEslintConfig (stat : Path → Bool) (userNames : List String)
    (dirname : Path) : Option Path :=
  getClosestConfigWith stat (userNames ++ DEFAULT_ESLINT_CONFIG_FILENAMES) dirname

/-- The inner `for` loop of the older `getClosestEslintConfig`
(lines 241-247): after each failed existence test it already checks the
root and the ascent bound.  `some r` means the function returns `r`
(`r = none` is `return` with no value); `none` means the loop fell
through and the outer loop continues. -/
def oldConfigScan (stat : Path → Bool) (configRoot : Path) (i : Nat) :
    List String → Option (Option Path)
  | [] => none
  | n :: rest =>
    if stat (configRoot ++ [n]) then some (some (configRoot ++ [n]))
    else if configRoot = [] then some none
    else if 100 < i then some none
    else oldConfigScan stat configRoot i rest

/-- The `while (true)` loop of the older `getClosestEslintConfig`
(lines 236-250), with explicit fuel. -/
def oldGetClosestAux (stat : Path → Bool) (names : List String) (dirname : Path) :
    Nat → Nat → Option Path
  | 0, _ => none
  | fuel + 1, i =>
    match oldConfigScan stat (ancestor dirname i) i names with
    | some r => r
    | none => oldGetClosestAux stat names dirname fuel (i + 1)

/-- getClosestEslintConfig, older variant (lines 235-251). -/
def oldGetClosestEslintConfig (stat : Path → Bool) (names : List String)
    (dirname : Path) : Option Path :=
  oldGetClosestAux stat names dirname 102 0

/-- Dynamically-typed JavaScript value, as observed by the script through
typeof-tests and strict equality; numbers are carried as integers. -/
inductive JVal where
  | str (s : String)
  | num (n : Int)
  | bool (b : Bool)
  | null
  | undefined
deriving DecidableEq

/-- An element of the `messages` array of an ESLint JSON result object;
each field may hold any JavaScript value (`undefined` for an absent
field). -/
structure EslintMessage where
  message : JVal
  line : JVal
  column : JVal
  endLine : JVal
  endColumn : JVal
  severity : JVal
deriving DecidableEq

/-- IssueSeverity levels of the host editor used by the script. -/
inductive IssueSeverity where
  | Info
  | Warning
  | Error
deriving DecidableEq

/-- A normalized Issue as built by `maybeLint` (lines 125-138): `endLine`
and `endColumn` are `none` when the corresponding field was never
assigned. -/
structure Issue where
  message : String
  line : Int
  column : Int
  endLine : Option Int
  endColumn : Option Int
  severity : IssueSeverity
deriving DecidableEq

/-- Word character of the JavaScript regex class `\w`: `[A-Za-z0-9_]`. -/
def isWordChar (c : Char) : Bool :=
  c.isAlpha || c.isDigit || c = '_'

/-- The test `issue.message.match(/^File ignored\b/)` (line 142) is truthy:
the text starts with "File ignored" and the following position is a word
boundary (end of string, or a non-word character). -/
def matchesFileIgnored (s : String) : Bool :=
  "File ignored".toList.isPrefixOf s.toList &&
    (match s.toList.drop 12 with
     | [] => true
     | c :: _ => !isWordChar c)

/-- The conditional chain of lines 133-138:
`severity === 1 ? Warning : severity === 2 ? Error : Info`. -/
def mapSeverity (v : JVal) : IssueSeverity :=
  if v = .num 1 then .Warning
  else if v = .num 2 then .Error
  else .Info

/-- The guarded assignments of lines 130-131: an end position is copied
only when the incoming field is a number. -/
def decodeNumOpt : JVal → Option Int
  | .num n => some n
  | _ => none

/-- The Issue constructed in lines 125-138 from a message whose
`message`/`line`/`column` fields passed the typeof checks. -/
def buildIssue (text : String) (line col : Int) (el ec sv : JVal) : Issue :=
  { message := text, line := line, column := col,
    endLine := decodeNumOpt el, endColumn := decodeNumOpt ec,
    severity := mapSeverity sv }

/-- The typeof checks of lines 116-120: a message is mapped only when its
`message` is a string and its `line` and `column` are numbers. -/
def validMessage (m : EslintMessage) : Bool :=
  (match m.message with | .str _ => true | _ => false) &&
  (match m.line with | .num _ => true | _ => false) &&
  (match m.column with | .num _ => true | _ => false)

/-- The `.map` callback of lines 115-147: `none` models returning
`undefined` (for a malformed message, after the `console.warn`, or for a
suppressed "File ignored" warning). -/
def mapMessage (m : EslintMessage) : Option Issue :=
  match m.message, m.line, m.column with
  | .str text, .num line, .num col =>
    let issue := buildIssue text line col m.endLine m.endColumn m.severity
    if issue.severity = .Warning ∧ matchesFileIgnored issue.message = true then none
    else some issue
  | _, _, _ => none

/-- Lines 114-148: `.map(...)` over the incoming messages followed by
`.filter(Boolean)`, which drops exactly the `undefined` entries (an Issue
object is always truthy). -/
def mapMessages (msgs : List EslintMessage) : List Issue :=
  msgs.filterMap mapMessage

/-- Re-encoding of an optional end position as an incoming field. -/
def encodeNumOpt : Option Int → JVal
  | some e => .num e
  | none => .undefined

/-- Re-encoding of a normalized severity as its numeric code (Info as 0,
the representative of "0 or any other value"). -/
def encodeSeverity : IssueSeverity → JVal
  | .Info => .num 0
  | .Warning => .num 1
  | .Error => .num 2

/-- Canonical re-encoding of a normalized Issue as an incoming message, to
state idempotence of the mapping. -/
def issueToMessage (i : Issue) : EslintMessage :=
  { message := .str i.message, line := .num i.line, column := .num i.column,
    endLine := encodeNumOpt i.endLine, endColumn := encodeNumOpt i.endColumn,
    severity := encodeSeverity i.severity }

/-- Outcome of `runAsync` (lines 17-30): exit code and the concatenated
stdout and stderr streams. -/
structure ProcessResult where
  code : Int
  stdout : String
  stderr : String
deriving DecidableEq

/-- A call made to the `onError` callback of `eslint`. -/
inductive LintReport (ε : Type) where
  | procError (message : String)
  | parseError (e : ε)
deriving DecidableEq

/-- The error message built at line 81. -/
def eslintCommandError (command : String) (code : Int) (stderr : String) : String :=
  "'" ++ command ++ "' failed with code '" ++ toString code ++
    "' and stderr '" ++ stderr ++ "'"

/-- Lines 78-90 of the `eslint` function, from the subprocess result on:
`parseJson` embeds `JSON.parse` (`.error e` is the thrown exception).
The first component is the returned value (`none` is `undefined`), the
second the list of calls made to `onError`. -/
def eslint (parseJson : String → Except ε α) (command : String)
    (pr : ProcessResult) : Option α × List (LintReport ε) :=
  if pr.stderr ≠ "" then
    (none, [.procError (eslintCommandError command pr.code pr.stderr)])
  else
    match parseJson pr.stdout with
    | .ok v => (some v, [])
    | .error e => (none, [.parseError e])

/-- Lines 168-181 of `maybeFix`, given the extracted dry-run output
`results?.[0]?.output` (`none` when absent) and the current full document
text.  The first component is the document text afterwards, the second
the returned boolean.  `if (!output) return false` treats the empty
string like an absent output. -/
def maybeFix (output : Option String) (currentText : String) : String × Bool :=
  match output with
  | none => (currentText, false)
  | some out =>
    if out = "" then (currentText, false)
    else if currentText = out then (currentText, false)
    else (out, true)

/-! Helper lemmas. -/

theorem ancestor_zero (p : Path) : ancestor p 0 = p := by
  simp [ancestor]

theorem ancestor_length (p : Path) (i : Nat) :
    (ancestor p i).length = p.length - i := by
  simp only [ancestor, List.length_take]
  omega

theorem ancestor_eq_nil_iff (p : Path) (i : Nat) :
    ancestor p i = [] ↔ p.length ≤ i := by
  rw [← List.length_eq_zero, ancestor_length]
  omega

theorem ancestor_ne_nil (p : Path) (i : Nat) (h : i < p.length) :
    ancestor p i ≠ [] := by
  rw [ne_eq, ancestor_eq_nil_iff]
  omega

/-- Fidelity of `ancestor`: level `i + 1` is one parent traversal above
level `i`, i.e. `ancestor` computes `"../".repeat(i)` applied to `p`. -/
theorem ancestor_succ (p : Path) (i : Nat) :
    ancestor p (i + 1) = parentDir (ancestor p i) := by
  simp only [ancestor, parentDir, List.dropLast_eq_take, List.length_take,
    List.take_take]
  congr 1
  omega

/-- The fuel embedding of the current locator loop is fuel-independent on
the reachable states (`i ≤ 101`) once the fuel covers the remaining
iterations: the loop always exits by `i = 101`. -/
theorem getClosestAux_fuel_stable (stat : Path → Bool) (names : List String)
    (dirname : Path) :
    ∀ fuel i, i ≤ 101 → 101 < fuel + i →
      getClosestAux stat names dirname (fuel + 1) i =
        getClosestAux stat names dirname fuel i := by
  intro fuel
  induction fuel with
  | zero => intro i h1 h2; omega
  | succ fuel ih =>
    intro i h1 h2
    simp only [getClosestAux]
    cases hf : findConfigAt stat names (ancestor dirname i) with
    | some p => rfl
    | none =>
      by_cases hroot : ancestor dirname i = []
      · simp [hroot]
      · by_cases hb : 100 < i
        · simp [hroot, hb]
        · simp only [hroot, hb, if_neg, if_false]
          exact ih (i + 1) (by omega) (by omega)

/-- Any fuel beyond 102 computes the same locator result: the embedding
with fuel 102 agrees with the unbounded `while (true)` loop. -/
theorem getClosestAux_fuel_enough (stat : Path → Bool) (names : List String)
    (dirname : Path) :
    ∀ extra, getClosestAux stat names dirname (102 + extra) 0 =
      getClosestAux stat names dirname 102 0 := by
  intro extra
  induction extra with
  | zero => rfl
  | succ extra ih =>
    rw [← ih]
    exact getClosestAux_fuel_stable stat names dirname (102 + extra) 0
      (by omega) (by omega)

/-- If all levels strictly below `j` have no candidate and level `j` has
one, the loop started at `i ≤ j` returns that candidate, provided level
`j` is within the ascent bound and not above the root. -/
theorem getClosestAux_finds (stat : Path → Bool) (names : List String)
    (dirname : Path) (p : Path) :
    ∀ fuel i j, i ≤ j → j ≤ 101 → j ≤ dirname.length → 101 < fuel + i →
      (∀ k, i ≤ k → k < j →
        findConfigAt stat names (ancestor dirname k) = none) →
      findConfigAt stat names (ancestor dirname j) = some p →
      getClosestAux stat names dirname fuel i = some p := by
  intro fuel
  induction fuel with
  | zero => intro i j h1 h2 _ h4 _ _; omega
  | succ fuel ih =>
    intro i j h1 h2 h3 h4 hbelow hat
    rcases Nat.lt_or_ge i j with hij | hij
    · have hnone : findConfigAt stat names (ancestor dirname i) = none :=
        hbelow i le_rfl hij
      have hroot : ¬ ancestor dirname i = [] :=
        ancestor_ne_nil dirname i (by omega)
      have hb : ¬ 100 < i := by omega
      simp only [getClosestAux, hnone, hroot, hb, if_neg, if_false]
      exact ih (i + 1) j (by omega) h2 h3 (by omega)
        (fun k hk1 hk2 => hbelow k (by omega) hk2) hat
    · have hij' : i = j := by omega
      subst hij'
      simp [getClosestAux, hat]

/-- If no level from `i` up to `min dirname.length 101` has a candidate,
the loop started at such a reachable `i` returns none. -/
theorem getClosestAux_none (stat : Path → Bool) (names : List String)
    (dirname : Path) :
    ∀ fuel i, i ≤ dirname.length → i ≤ 101 →
      (∀ j, i ≤ j → j ≤ dirname.length → j ≤ 101 →
        findConfigAt stat names (ancestor dirname j) = none) →
      getClosestAux stat names dirname fuel i = none := by
  intro fuel
  induction fuel with
  | zero => intro i _ _ _; rfl
  | succ fuel ih =>
    intro i h1 h2 hnone
    have hi : findConfigAt stat names (ancestor dirname i) = none :=
      hnone i le_rfl h1 h2
    simp only [getClosestAux, hi]
    by_cases hroot : ancestor dirname i = []
    · simp [hroot]
    · have hlen : i < dirname.length := by
        rcases Nat.lt_or_ge i dirname.length with h | h
        · exact h
        · exact absurd ((ancestor_eq_nil_iff dirname i).mpr h) hroot
      by_cases hb : 100 < i
      · simp [hroot, hb]
      · simp only [hroot, hb, if_neg, if_false]
        exact ih (i + 1) (by omega) (by omega)
          (fun j hj1 hj2 hj3 => hnone j (by omega) hj2 hj3)

/-- If the older variant's inner loop returned a path, it is the one the
current variant's inner loop finds: the scanned prefix of the candidate
list all failed the existence test. -/
theorem oldConfigScan_some_some (stat : Path → Bool) (configRoot : Path)
    (i : Nat) :
    ∀ names p, oldConfigScan stat configRoot i names = some (some p) →
      findConfigAt stat names configRoot = some p := by
  intro names
  induction names with
  | nil => intro p h; simp [oldConfigScan] at h
  | cons n rest ih =>
    intro p h
    by_cases hs : stat (configRoot ++ [n]) = true
    · simp only [oldConfigScan, hs, if_true] at h
      have hp : configRoot ++ [n] = p := by simpa using h
      subst hp
      simp [findConfigAt, List.find?_cons, hs]
    · simp only [oldConfigScan, hs, if_false, Bool.false_eq_true] at h
      simp only [findConfigAt, List.find?_cons, hs]
      by_cases hroot : configRoot = []
      · simp [hroot] at h
      · by_cases hb : 100 < i
        · simp [hroot, hb] at h
        · simp only [hroot, hb, if_neg, if_false] at h
          exact ih p h

/-- If the older variant's inner loop fell through to the next level, no
candidate exists at this level. -/
theorem oldConfigScan_none (stat : Path → Bool) (configRoot : Path) (i : Nat) :
    ∀ names, oldConfigScan stat configRoot i names = none →
      findConfigAt stat names configRoot = none := by
  intro names
  induction names with
  | nil => intro _; simp [findConfigAt]
  | cons n rest ih =>
    intro h
    by_cases hs : stat (configRoot ++ [n]) = true
    · simp [oldConfigScan, hs] at h
    · simp only [oldConfigScan, hs, if_false, Bool.false_eq_true] at h
      simp only [findConfigAt, List.find?_cons, hs]
      by_cases hroot : configRoot = []
      · simp [hroot] at h
      · by_cases hb : 100 < i
        · simp [hroot, hb] at h
        · simp only [hroot, hb, if_neg, if_false] at h
          exact ih h

/-- The older inner loop falls through a non-empty candidate list only
when the level is not the root and the ascent bound is not exceeded. -/
theorem oldConfigScan_none_cons (stat : Path → Bool) (configRoot : Path)
    (i : Nat) (n : String) (rest : List String)
    (h : oldConfigScan stat configRoot i (n :: rest) = none) :
    configRoot ≠ [] ∧ i ≤ 100 := by
  by_cases hs : stat (configRoot ++ [n]) = true
  · simp [oldConfigScan, hs] at h
  · by_cases hroot : configRoot = []
    · simp only [oldConfigScan, hs, Bool.false_eq_true, if_false] at h
      rw [if_pos hroot] at h
      simp at h
    · by_cases hb : 100 < i
      · simp [oldConfigScan, hs, hroot, hb] at h
      · exact ⟨hroot, by omega⟩

/-- With an empty candidate list the older loop never exits on its own
(the root and bound checks live inside the `for` body); the fuel
embedding returns none. -/
theorem oldGetClosestAux_nil (stat : Path → Bool) (dirname : Path) :
    ∀ fuel i, oldGetClosestAux stat [] dirname fuel i = none := by
  intro fuel
  induction fuel with
  | zero => intro i; rfl
  | succ fuel ih =>
    intro i
    simp only [oldGetClosestAux, oldConfigScan]
    exact ih (i + 1)

/-- Whatever the older locator loop returns, the current one returns as
well, from any common state. -/
theorem oldGetClosestAux_refines (stat : Path → Bool) (names : List String)
    (dirname : Path) :
    ∀ fuel i p, oldGetClosestAux stat names dirname fuel i = some p →
      getClosestAux stat names dirname fuel i = some p := by
  intro fuel
  induction fuel with
  | zero => intro i p h; exact absurd h (by simp [oldGetClosestAux])
  | succ fuel ih =>
    intro i p h
    cases hscan : oldConfigScan stat (ancestor dirname i) i names with
    | some r =>
      simp only [oldGetClosestAux, hscan] at h
      subst h
      have := oldConfigScan_some_some stat (ancestor dirname i) i names p hscan
      simp [getClosestAux, this]
    | none =>
      simp only [oldGetClosestAux, hscan] at h
      cases names with
      | nil =>
        rw [oldGetClosestAux_nil] at h
        exact absurd h (by simp)
      | cons n rest =>
        have hfind := oldConfigScan_none stat (ancestor dirname i) i
          (n :: rest) hscan
        have hconds := oldConfigScan_none_cons stat (ancestor dirname i) i
          n rest hscan
        have hb : ¬ 100 < i := by omega
        simp only [getClosestAux, hfind, hconds.1, hb, if_neg, if_false]
        exact ih (i + 1) p h

/-- The fuel embedding of the older loop is also fuel-independent on the
reachable states, for a non-empty candidate list. -/
theorem oldGetClosestAux_fuel_stable (stat : Path → Bool) (n : String)
    (rest : List String) (dirname : Path) :
    ∀ fuel i, i ≤ 101 → 101 < fuel + i →
      oldGetClosestAux stat (n :: rest) dirname (fuel + 1) i =
        oldGetClosestAux stat (n :: rest) dirname fuel i := by
  intro fuel
  induction fuel with
  | zero => intro i h1 h2; omega
  | succ fuel ih =>
    intro i h1 h2
    cases hscan : oldConfigScan stat (ancestor dirname i) i (n :: rest) with
    | some r => simp [oldGetClosestAux, hscan]
    | none =>
      have hconds := oldConfigScan_none_cons stat (ancestor dirname i) i
        n rest hscan
      simp only [oldGetClosestAux, hscan]
      exact ih (i + 1) (by omega) (by omega)

/-- Inversion of the message mapping: a mapped message has a string text
and numeric positions, the produced Issue is the one built at lines
125-138, and the suppression condition of lines 140-144 is false on it. -/
theorem mapMessage_some_inv (m : EslintMessage) (i : Issue)
    (h : mapMessage m = some i) :
    ∃ text line col, m.message = .str text ∧ m.line = .num line ∧
      m.column = .num col ∧
      i = buildIssue text line col m.endLine m.endColumn m.severity ∧
      ¬ (i.severity = .Warning ∧ matchesFileIgnored i.message = true) := by
  rcases m with ⟨mm, ml, mc, mel, mec, msv⟩
  cases mm <;> cases ml <;> cases mc <;>
    simp only [mapMessage] at h <;>
    try exact Option.noConfusion h
  split at h
  · exact Option.noConfusion h
  · next hcond =>
    have hi := Option.some.inj h
    exact ⟨_, _, _, rfl, rfl, rfl, hi.symm, hi ▸ hcond⟩

/-- A message failing one of the typeof checks of lines 116-120 is mapped
to `undefined`. -/
theorem mapMessage_invalid (m : EslintMessage) (h : validMessage m = false) :
    mapMessage m = none := by
  rcases m with ⟨mm, ml, mc, mel, mec, msv⟩
  cases mm <;> cases ml <;> cases mc <;>
    simp_all [validMessage, mapMessage]

theorem mapSeverity_two : mapSeverity (.num 2) = .Error := by decide

theorem mapSeverity_one : mapSeverity (.num 1) = .Warning := by decide

theorem mapSeverity_other (v : JVal) (h1 : v ≠ .num 1) (h2 : v ≠ .num 2) :
    mapSeverity v = .Info := by
  simp [mapSeverity, h1, h2]

theorem decodeNumOpt_encode (o : Option Int) :
    decodeNumOpt (encodeNumOpt o) = o := by
  cases o <;> rfl

theorem mapSeverity_encodeSeverity (s : IssueSeverity) :
    mapSeverity (encodeSeverity s) = s := by
  cases s <;> decide

/-- An Issue on which the suppression condition is false is reproduced
exactly by mapping its re-encoding. -/
theorem mapMessage_issueToMessage_of_not_suppressed (i : Issue)
    (hcond : ¬ (i.severity = .Warning ∧ matchesFileIgnored i.message = true)) :
    mapMessage (issueToMessage i) = some i := by
  rcases i with ⟨msg, line, col, el, ec, sv⟩
  have hb : buildIssue msg line col (encodeNumOpt el) (encodeNumOpt ec)
      (encodeSeverity sv) = ⟨msg, line, col, el, ec, sv⟩ := by
    simp [buildIssue, decodeNumOpt_encode, mapSeverity_encodeSeverity]
  simp only [issueToMessage, mapMessage, hb]
  rw [if_neg (by simpa using hcond)]

/-- The mapping reproduces any Issue it has itself produced. -/
theorem mapMessage_issueToMessage (m : EslintMessage) (i : Issue)
    (h : mapMessage m = some i) : mapMessage (issueToMessage i) = some i := by
  obtain ⟨text, line, col, _, _, _, _, hcond⟩ := mapMessage_some_inv m i h
  exact mapMessage_issueToMessage_of_not_suppressed i hcond

/-! Claim theorems. -/

/-- C1 (amended): whenever the nearest ancestor level `j` containing any
candidate filename lies within reach of the loop (`j ≤ 101`, which is
always the case for start directories at most 101 levels deep), the
locator returns the candidate at that level given by the first-listed
existing name (user-configured names preceding the built-in defaults),
all candidates being exhausted at a level before ascending and a closer
level always winning regardless of name order.  The original claim's
unrestricted "for every starting directory and filesystem state" fails
when the nearest match lies beyond the ascent bound (see the
counterexample). -/
theorem getClosestEslintConfig_nearest (stat : Path → Bool)
    (userNames : List String) (dirname : Path) (j : Nat) (p : Path)
    (hj : j ≤ 101) (hd : j ≤ dirname.length)
    (hbelow : ∀ k, k < j →
      findConfigAt stat (userNames ++ DEFAULT_ESLINT_CONFIG_FILENAMES)
        (ancestor dirname k) = none)
    (hat : findConfigAt stat (userNames ++ DEFAULT_ESLINT_CONFIG_FILENAMES)
      (ancestor dirname j) = some p) :
    getClosestEslintConfig stat userNames dirname = some p :=
  getClosestAux_finds stat (userNames ++ DEFAULT_ESLINT_CONFIG_FILENAMES)
    dirname p 102 0 j (Nat.zero_le j) hj hd (by omega)
    (fun k _ hk => hbelow k hk) hat

/-- C1 witness: in `/home/proj/src`, with a user-configured name
`custom.rc` and both `/home/proj/custom.rc` and
`/home/proj/eslint.config.js` existing, the locator returns the
user-configured (earlier-listed) candidate of the nearest matching
level 1. -/
theorem getClosestEslintConfig_nearest_witness :
    getClosestEslintConfig
      (fun p => decide (p = ["home", "proj", "custom.rc"] ∨
        p = ["home", "proj", "eslint.config.js"]))
      ["custom.rc"] ["home", "proj", "src"] =
      some ["home", "proj", "custom.rc"] :=
  getClosestEslintConfig_nearest _ _ _ 1 _ (by decide) (by decide)
    (by decide) (by decide)

/-- C1 counterexample: for a start directory 102 levels deep whose only
candidate config lives at the root (102 parent traversals up, the
nearest — indeed only — matching ancestor), the locator returns none
instead of that path, refuting the claim as stated for every starting
directory and filesystem state. -/
theorem getClosestEslintConfig_nearest_cex :
    getClosestEslintConfig (fun p => decide (p = ["eslint.config.js"])) []
      (List.replicate 102 "d") = none ∧
    findConfigAt (fun p => decide (p = ["eslint.config.js"]))
      ([] ++ DEFAULT_ESLINT_CONFIG_FILENAMES)
      (ancestor (List.replicate 102 "d") 102) = some ["eslint.config.js"] ∧
    (∀ k, k < 102 → findConfigAt (fun p => decide (p = ["eslint.config.js"]))
      ([] ++ DEFAULT_ESLINT_CONFIG_FILENAMES)
      (ancestor (List.replicate 102 "d") k) = none) := by
  refine ⟨by decide, by decide, by decide⟩

/-- C2: the locator returns none exactly under the loop's exit discipline:
if no candidate exists at any tested level — the levels from the start
directory up to the root when the start is at most 101 levels deep, and
the levels `0..101` otherwise (the ascent stops once `i` exceeds the
bound 100, after exhausting level 101's candidates) — the result is
absent, regardless of any matching config file farther up. -/
theorem getClosestEslintConfig_absent (stat : Path → Bool)
    (userNames : List String) (dirname : Path)
    (hnone : ∀ j, j ≤ dirname.length → j ≤ 101 →
      findConfigAt stat (userNames ++ DEFAULT_ESLINT_CONFIG_FILENAMES)
        (ancestor dirname j) = none) :
    getClosestEslintConfig stat userNames dirname = none :=
  getClosestAux_none stat (userNames ++ DEFAULT_ESLINT_CONFIG_FILENAMES)
    dirname 102 0 (Nat.zero_le _) (by omega)
    (fun j _ h2 h3 => hnone j h2 h3)

/-- C2 witness: a start directory 103 levels deep with a config file only
at the root: no candidate exists at any of the tested levels 0..101, so
the locator returns none even though a match exists farther up. -/
theorem getClosestEslintConfig_absent_witness :
    getClosestEslintConfig (fun p => decide (p = ["eslint.config.js"])) []
      (List.replicate 103 "e") = none ∧
    (fun p => decide (p = ["eslint.config.js"])) ["eslint.config.js"] = true :=
  ⟨getClosestEslintConfig_absent _ _ _ (by decide), by decide⟩

/-- C3: a warning-severity diagnostic is suppressed exactly when its text
matches `/^File ignored\b/` — the prefix "File ignored" followed by a
word boundary; in particular "File ignored", "File ignored because of a
matching ignore pattern" and "File ignored later" are excluded while
"Ignored file: foo" is kept. -/
theorem mapMessage_file_ignored_suppression :
    (∀ (text : String) (l c : Int) (el ec : JVal),
      mapMessage ⟨.str text, .num l, .num c, el, ec, .num 1⟩ = none ↔
        matchesFileIgnored text = true) ∧
    mapMessage ⟨.str "File ignored", .num 1, .num 1, .undefined, .undefined,
      .num 1⟩ = none ∧
    mapMessage ⟨.str "File ignored because of a matching ignore pattern",
      .num 1, .num 1, .undefined, .undefined, .num 1⟩ = none ∧
    mapMessage ⟨.str "File ignored later", .num 1, .num 1, .undefined, .undefined,
      .num 1⟩ = none ∧
    mapMessage ⟨.str "Ignored file: foo", .num 1, .num 1, .undefined, .undefined,
      .num 1⟩ ≠ none := by
  refine ⟨?_, by decide, by decide, by decide, by decide⟩
  intro text l c el ec
  have hsev : (buildIssue text l c el ec (.num 1)).severity = .Warning := by
    simp [buildIssue, mapSeverity]
  by_cases hm : matchesFileIgnored text = true
  · simp only [mapMessage]
    rw [if_pos ⟨hsev, hm⟩]
    simp [hm]
  · simp only [mapMessage]
    rw [if_neg (by simp [buildIssue, hm])]
    simp [hm]

/-- C4: every mapped diagnostic's severity is determined by the incoming
numeric severity alone: 2 maps to error, 1 to warning, and 0 or any
other value to info. -/
theorem mapMessage_severity_mapping (m : EslintMessage) (i : Issue)
    (h : mapMessage m = some i) :
    i.severity = mapSeverity m.severity ∧
    (m.severity = .num 2 → i.severity = .Error) ∧
    (m.severity = .num 1 → i.severity = .Warning) ∧
    (m.severity ≠ .num 1 → m.severity ≠ .num 2 → i.severity = .Info) := by
  obtain ⟨text, line, col, _, _, _, hi, _⟩ := mapMessage_some_inv m i h
  have h0 : i.severity = mapSeverity m.severity := by rw [hi]; rfl
  refine ⟨h0, fun h2 => by rw [h0, h2, mapSeverity_two],
    fun h1 => by rw [h0, h1, mapSeverity_one],
    fun h1 h2 => by rw [h0, mapSeverity_other _ h1 h2]⟩

/-- C4 witness: an incoming message with numeric severity 2 is mapped to
an error-severity issue. -/
theorem mapMessage_severity_mapping_witness :
    mapMessage ⟨.str "x", .num 1, .num 2, .undefined, .undefined, .num 2⟩ =
      some ⟨"x", 1, 2, none, none, .Error⟩ ∧
    (⟨"x", 1, 2, none, none, .Error⟩ : Issue).severity = .Error :=
  ⟨by decide,
    (mapMessage_severity_mapping
      ⟨.str "x", .num 1, .num 2, .undefined, .undefined, .num 2⟩
      ⟨"x", 1, 2, none, none, .Error⟩ (by decide)).2.1 rfl⟩

/-- C5: if the subprocess wrote to stderr, the lint runner reports exactly
one error — whose text contains the invoked command, the exit code and
the stderr content — and yields no result; if stderr is empty and the
stdout does not parse as JSON, the parse failure is reported and the
runner likewise yields no result.  (The embedding is total, so neither
path throws.) -/
theorem eslint_error_handling {ε α : Type} (parseJson : String → Except ε α)
    (command : String) (pr : ProcessResult) :
    (pr.stderr ≠ "" →
      eslint parseJson command pr =
        (none, [.procError (eslintCommandError command pr.code pr.stderr)]) ∧
      (∃ s t : String,
        eslintCommandError command pr.code pr.stderr = s ++ command ++ t) ∧
      (∃ s t : String,
        eslintCommandError command pr.code pr.stderr =
          s ++ toString pr.code ++ t) ∧
      (∃ s t : String,
        eslintCommandError command pr.code pr.stderr = s ++ pr.stderr ++ t)) ∧
    (pr.stderr = "" → ∀ e, parseJson pr.stdout = .error e →
      eslint parseJson command pr = (none, [.parseError e])) := by
  constructor
  · intro h
    refine ⟨by simp [eslint, h],
      ⟨"'", "' failed with code '" ++ toString pr.code ++ "' and stderr '" ++
        pr.stderr ++ "'", ?_⟩,
      ⟨"'" ++ command ++ "' failed with code '",
        "' and stderr '" ++ pr.stderr ++ "'", ?_⟩,
      ⟨"'" ++ command ++ "' failed with code '" ++ toString pr.code ++
        "' and stderr '", "'", ?_⟩⟩ <;>
      simp [eslintCommandError, String.append_assoc]
  · intro h e hp
    simp [eslint, h, hp]

/-- C5 witness: a run with stderr "boom" yields no result and the one
reported process error; a run with empty stderr whose stdout fails to
parse yields no result and the parse failure. -/
theorem eslint_error_handling_witness :
    eslint (fun _ : String => (Except.error "nope" : Except String Unit))
      "eslint --config c f.js" ⟨2, "out", "boom"⟩ =
      (none, [.procError
        (eslintCommandError "eslint --config c f.js" 2 "boom")]) ∧
    eslint (fun _ : String => (Except.error "nope" : Except String Unit))
      "eslint --config c f.js" ⟨0, "out", ""⟩ =
      (none, [.parseError "nope"]) :=
  ⟨((eslint_error_handling _ _ _).1 (by decide)).1,
    (eslint_error_handling _ _ _).2 rfl "nope" rfl⟩

/-- C6: a message is mapped only if it carries a string text, a numeric
line and a numeric column; a malformed entry maps to nothing (after the
warning side-effect) and is dropped from the list while the remaining
entries are still mapped — the mapping is total, so the drop never
surfaces as a thrown error. -/
theorem mapMessages_malformed_dropped (m : EslintMessage)
    (l1 l2 : List EslintMessage) (h : validMessage m = false) :
    mapMessage m = none ∧
    mapMessages (l1 ++ m :: l2) = mapMessages l1 ++ mapMessages l2 := by
  have h0 := mapMessage_invalid m h
  exact ⟨h0, by simp [mapMessages, List.filterMap_append, List.filterMap_cons, h0]⟩

/-- C6 witness: a message with a non-string text between two well-formed
messages is dropped and the neighbors are still mapped. -/
theorem mapMessages_malformed_dropped_witness :
    mapMessage ⟨.undefined, .num 1, .num 1, .undefined, .undefined, .num 2⟩ = none ∧
    mapMessages ([⟨.str "a", .num 1, .num 1, .undefined, .undefined, .num 2⟩] ++
        ⟨.undefined, .num 1, .num 1, .undefined, .undefined, .num 2⟩ ::
        [⟨.str "b", .num 2, .num 2, .undefined, .undefined, .num 0⟩]) =
      mapMessages [⟨.str "a", .num 1, .num 1, .undefined, .undefined, .num 2⟩] ++
        mapMessages [⟨.str "b", .num 2, .num 2, .undefined, .undefined, .num 0⟩] :=
  mapMessages_malformed_dropped _ _ _ (by decide)

/-- C7 (amended): for a non-empty proposed fix output, the document is
replaced by the proposed text if and only if it differs byte-for-byte
from the current text, and a change is reported exactly in that case;
when they are equal nothing happens.  The original unconditional "if and
only if" fails for the empty proposed output, which the code treats as
no output at all (see the counterexample and C9). -/
theorem maybeFix_replaces_iff_differs (out current : String)
    (h : out ≠ "") :
    maybeFix (some out) current =
      (if current = out then (current, false) else (out, true)) ∧
    ((maybeFix (some out) current).2 = true ↔ current ≠ out) := by
  by_cases hc : current = out <;> simp [maybeFix, h, hc]

/-- C7 witness: the spec's example — fix output "const x = 1;" against
current text "const x = 1" replaces the document and reports a change. -/
theorem maybeFix_replaces_iff_differs_witness :
    maybeFix (some "const x = 1;") "const x = 1" = ("const x = 1;", true) := by
  have h := (maybeFix_replaces_iff_differs "const x = 1;" "const x = 1"
    (by decide)).1
  rw [if_neg (by decide)] at h
  exact h

/-- C7 counterexample: with proposed output "" and current text
"const x = 1" the two differ, yet no replacement happens and no change
is reported, refuting the unconditional "if and only if". -/
theorem maybeFix_replaces_iff_differs_cex :
    maybeFix (some "") "const x = 1" = ("const x = 1", false) ∧
    "const x = 1" ≠ "" := by
  exact ⟨by decide, by decide⟩

/-- C8: the diagnostic mapping is idempotent — mapping the canonical
re-encoding of an already-mapped list returns that list unchanged. -/
theorem mapMessages_idempotent (msgs : List EslintMessage) :
    mapMessages ((mapMessages msgs).map issueToMessage) = mapMessages msgs := by
  induction msgs with
  | nil => rfl
  | cons m rest ih =>
    cases h : mapMessage m with
    | none => simpa [mapMessages, List.filterMap_cons, h] using ih
    | some i =>
      simpa [mapMessages, List.filterMap_cons, h,
        mapMessage_issueToMessage m i h] using ih

/-- C9: an empty proposed fix output is treated exactly like an absent
output: `maybeFix` reports no change and leaves the document untouched,
even when the current text is non-empty. -/
theorem maybeFix_empty_output_noop (current : String) :
    maybeFix (some "") current = (current, false) ∧
    maybeFix (some "") current = maybeFix none current := by
  simp [maybeFix]

/-- C10 (amended): the older locator variant refines the current one —
whenever the older variant (root and bound checks inside the
per-candidate loop) returns a path, the current variant (checks once per
level, after all candidates) returns the same path on the same candidate
list.  Full equivalence fails: the older variant gives up at the root or
bound level as soon as one candidate is missing, before trying
later-listed candidates (see the counterexample). -/
theorem oldGetClosestEslintConfig_refines (stat : Path → Bool)
    (names : List String) (dirname : Path) (p : Path)
    (h : oldGetClosestEslintConfig stat names dirname = some p) :
    getClosestConfigWith stat names dirname = some p :=
  oldGetClosestAux_refines stat names dirname 102 0 p h

/-- C10 witness: when the first-listed candidate exists at the start
directory, both variants return it. -/
theorem oldGetClosestEslintConfig_refines_witness :
    getClosestConfigWith (fun p => decide (p = ["eslint.config.js"]))
      DEFAULT_ESLINT_CONFIG_FILENAMES [] = some ["eslint.config.js"] :=
  oldGetClosestEslintConfig_refines _ _ _ _ (by decide)

/-- C10 counterexample: starting at the root with only
`/eslint.config.mjs` (the second-listed candidate) present, the older
variant returns none — it bails out at the root check right after the
first candidate misses — while the current variant returns the path, so
the two variants are not equivalent. -/
theorem oldGetClosestEslintConfig_refines_cex :
    oldGetClosestEslintConfig (fun p => decide (p = ["eslint.config.mjs"]))
      DEFAULT_ESLINT_CONFIG_FILENAMES [] = none ∧
    getClosestConfigWith (fun p => decide (p = ["eslint.config.mjs"]))
      DEFAULT_ESLINT_CONFIG_FILENAMES [] = some ["eslint.config.mjs"] := by
  exact ⟨by decide, by decide⟩

end NanoEslint
